import Mathlib

/-!
Verification of the SPH fluid-simulation kernel of `liquids_bevy` (src/main.rs).

The f32 arithmetic of the source is embedded over the real numbers.  Positions
and velocities are `Vec3` values in the source whose z component is identically
zero (particles spawn at z = 0, gravity and all forces have zero z component),
so vectors are embedded as pairs `ℝ × ℝ`.  The two places where IEEE-754
behaviour is itself the subject of a claim are modelled explicitly:

* `is_finite` guards in `velocity_system` / `update_system` take the outcome of
  the finiteness test as a `Bool` oracle parameter, since real arithmetic
  cannot overflow;
* `Vec3::normalize` of a zero vector, which in glam produces a NaN vector, is
  modelled as `Option`-valued (`none` standing for a non-finite result); a NaN
  propagates through every arithmetic operation, and `NaN > 0.0` is false, so
  the branch structure of `collision_system` is reproduced faithfully.
-/

noncomputable section

open Real

/-- 2D vector; the z component of the source's `Vec3`s is identically zero. -/
abbrev V : Type := ℝ × ℝ

/-! ### Constants (src/main.rs lines 11-20) -/

def RADIUS : ℝ := 1
def MASS : ℝ := 50
def SMOOTHING_RADIUS : ℝ := 5
def TARGET_DENSITY : ℝ := 5000
def PRESSURE_MULTIPLIER : ℝ := 2
def WIDTH : ℝ := 100
def HEIGHT : ℝ := 100
def GRAVITY : ℝ := 10
def DAMPING_FACTOR : ℝ := 99/100
def E : ℝ := 1/100

/-- `f32::EPSILON` = 2^-23, the threshold in `calculate_pressure_force`. -/
def f32Epsilon : ℝ := 1/8388608

/-! ### Kernels (src/main.rs lines 107-124) -/

/-- `smoothing_kernel`: `0` for `distance >= radius`, else
`(radius - distance)^2 / ((PI * radius^4) / 6)`. -/
def smoothing_kernel (radius distance : ℝ) : ℝ :=
  if distance ≥ radius then 0
  else (radius - distance)^2 / ((Real.pi * radius^4) / 6)

/-- `smoothing_kernel_derivative`: `0` for `distance > radius`, else
`(distance - radius) * (12 / (radius^4 * PI))`. -/
def smoothing_kernel_derivative (radius distance : ℝ) : ℝ :=
  if distance > radius then 0
  else (distance - radius) * (12 / (radius^4 * Real.pi))

/-- `density_to_pressure` (src/main.rs lines 133-135). -/
def density_to_pressure (density : ℝ) : ℝ :=
  (density - TARGET_DENSITY) * PRESSURE_MULTIPLIER

lemma smoothing_kernel_nonneg (radius distance : ℝ) :
    0 ≤ smoothing_kernel radius distance := by
  unfold smoothing_kernel
  split
  · exact le_refl 0
  · have h4 : (0:ℝ) ≤ radius^4 := by positivity
    have := Real.pi_pos
    positivity

lemma smoothing_kernel_zero_of_ge (radius distance : ℝ) (h : radius ≤ distance) :
    smoothing_kernel radius distance = 0 := by
  unfold smoothing_kernel
  simp [h]

/-- Claim C9: for `r > 0` and `0 ≤ d < r` the gradient kernel is the analytic
radial derivative of the density kernel: `smoothing_kernel_derivative` returns
`(d - r) * 12 / (pi * r^4) = dW/dd`, and both kernels vanish beyond the
support (`W` for `d ≥ r`, the derivative for `d > r`). -/
theorem claim_C9_kernel_derivative (r d : ℝ) (hr : 0 < r) (h0 : 0 ≤ d) (hd : d < r) :
    HasDerivAt (fun x => smoothing_kernel r x) (smoothing_kernel_derivative r d) d ∧
    smoothing_kernel_derivative r d = (d - r) * 12 / (Real.pi * r^4) ∧
    (∀ x, r ≤ x → smoothing_kernel r x = 0) ∧
    (∀ x, r < x → smoothing_kernel_derivative r x = 0) := by
  have hpi := Real.pi_ne_zero
  have hr4 : r^4 ≠ 0 := pow_ne_zero 4 hr.ne'
  refine ⟨?_, ?_, ?_, ?_⟩
  · have hpoly : HasDerivAt (fun x : ℝ => (r - x)^2 / ((Real.pi * r^4) / 6))
        (smoothing_kernel_derivative r d) d := by
      have hbase : HasDerivAt (fun x : ℝ => r - x) (-1) d := (hasDerivAt_id d).const_sub r
      have hsq : HasDerivAt (fun x : ℝ => (r - x)^2) ((2:ℕ) * (r - d)^1 * (-1)) d :=
        hbase.pow 2
      have hdiv := hsq.div_const ((Real.pi * r^4) / 6)
      convert hdiv using 1
      unfold smoothing_kernel_derivative
      rw [if_neg (by linarith)]
      field_simp
      ring
    refine hpoly.congr_of_eventuallyEq ?_
    filter_upwards [Iio_mem_nhds hd] with x hx
    unfold smoothing_kernel
    rw [if_neg (by exact not_le.mpr hx)]
  · unfold smoothing_kernel_derivative
    rw [if_neg (by linarith)]
    ring
  · intro x hx
    exact smoothing_kernel_zero_of_ge r x hx
  · intro x hx
    unfold smoothing_kernel_derivative
    simp [hx]

/-- Witness for C9 at `r = 5`, `d = 1`. -/
theorem claim_C9_kernel_derivative_inst :
    (0:ℝ) < 5 ∧ (0:ℝ) ≤ 1 ∧ (1:ℝ) < 5 ∧
    (HasDerivAt (fun x => smoothing_kernel 5 x) (smoothing_kernel_derivative 5 1) 1 ∧
     smoothing_kernel_derivative 5 1 = (1 - 5) * 12 / (Real.pi * 5^4) ∧
     (∀ x, (5:ℝ) ≤ x → smoothing_kernel 5 x = 0) ∧
     (∀ x, (5:ℝ) < x → smoothing_kernel_derivative 5 x = 0)) :=
  ⟨by norm_num, by norm_num, by norm_num,
    claim_C9_kernel_derivative 5 1 (by norm_num) (by norm_num) (by norm_num)⟩

/-! ### Particle store and spatial hash (src/main.rs lines 100-105, 169-209) -/

/-- A particle as enumerated from the store: a stable entity handle and the
`translation` of its `Transform` (z component identically zero). -/
structure Particle where
  id : ℕ
  pos : V

/-- `Vec3::distance` between the (z = 0) positions `a` and `b`. -/
def vdist (a b : V) : ℝ := Real.sqrt ((b.1 - a.1)^2 + (b.2 - a.2)^2)

/-- `hash_position` (src/main.rs lines 100-105). -/
def hash_position (position : V) (cell_size : ℝ) : ℤ × ℤ :=
  (⌊position.1 / cell_size⌋, ⌊position.2 / cell_size⌋)

/-- The nine `(dx, dy)` offsets of the `-1..=1` double loop, in loop order. -/
def offsets : List (ℤ × ℤ) :=
  [(-1,-1), (-1,0), (-1,1), (0,-1), (0,0), (0,1), (1,-1), (1,0), (1,1)]

/-- The bucket of cell `c` in the spatial hash built over `store` with cell
size `cs`: the particles pushed into `spatial_hash[c]`, in store order. -/
def bucket (cs : ℝ) (store : List Particle) (c : ℤ × ℤ) : List Particle :=
  store.filter fun q => decide (hash_position q.pos cs = c)

/-- A particle's contribution to the density at `position` in the inner loop
of `cache_density_system` (src/main.rs lines 197-202). -/
def densityTerm (position : V) (q : Particle) : ℝ :=
  if vdist q.pos position < SMOOTHING_RADIUS
  then MASS * smoothing_kernel SMOOTHING_RADIUS (vdist q.pos position)
  else 0

/-- The density computed for a particle at `position` by the 3×3 neighbour
query of `cache_density_system` with cell size `cs`. -/
def densityAt (cs : ℝ) (store : List Particle) (position : V) : ℝ :=
  (offsets.map fun o =>
    ((bucket cs store (hash_position position cs + o)).map
      (densityTerm position)).sum).sum

/-- The density obtained by summing `MASS * W` over the whole store (the
spec's reference value; also the commented-out `calculate_density`). -/
def densityFull (store : List Particle) (position : V) : ℝ :=
  (store.map fun q =>
    MASS * smoothing_kernel SMOOTHING_RADIUS (vdist q.pos position)).sum

/-- `cache_density_system` (src/main.rs lines 169-209): the rebuilt density
cache, as the association list `entity ↦ density`; the cell size is
`SMOOTHING_RADIUS.powi(2)`. -/
def cache_density_system (store : List Particle) : List (ℕ × ℝ) :=
  store.map fun p => (p.id, densityAt (SMOOTHING_RADIUS^2) store p.pos)

/-- The clamp `density.max(1e-6)` of `velocity_system` (src/main.rs line 236). -/
def density_safe (density : ℝ) : ℝ := max density 1e-6

/-! ### List-algebra helpers -/

lemma sum_map_zero {α : Type} (l : List α) : (l.map fun _ => (0:ℝ)).sum = 0 := by
  induction l with
  | nil => simp
  | cons a t ih => simp [ih]

lemma sum_map_add {α : Type} (l : List α) (f g : α → ℝ) :
    (l.map fun a => f a + g a).sum = (l.map f).sum + (l.map g).sum := by
  induction l with
  | nil => simp
  | cons a t ih => simp [ih]; ring

lemma sum_map_swap {α β : Type} (os : List α) (l : List β) (g : α → β → ℝ) :
    (os.map fun o => (l.map (g o)).sum).sum = (l.map fun q => (os.map fun o => g o q).sum).sum := by
  induction os with
  | nil => simp [sum_map_zero]
  | cons o t ih =>
      simp only [List.map_cons, List.sum_cons, ih]
      rw [← sum_map_add]

lemma sum_map_filter {α : Type} (l : List α) (p : α → Bool) (f : α → ℝ) :
    ((l.filter p).map f).sum = (l.map fun a => if p a then f a else 0).sum := by
  induction l with
  | nil => simp
  | cons a t ih =>
      by_cases h : p a
      · simp [List.filter_cons, h, ih]
      · simp [List.filter_cons, h, ih]

lemma sum_map_ite_eq {α : Type} [DecidableEq α] (l : List α) (hl : l.Nodup) (a : α) (y : ℝ) :
    (l.map fun x => if a = x then y else 0).sum = if a ∈ l then y else 0 := by
  induction l with
  | nil => simp
  | cons b t ih =>
      rcases List.nodup_cons.mp hl with ⟨hb, ht⟩
      by_cases h : a = b
      · subst h
        have hz : (t.map fun x => if a = x then y else 0).sum = 0 := by
          rw [ih ht]
          simp [hb]
        simp [hz]
      · simp only [List.map_cons, List.sum_cons, if_neg h, zero_add, ih ht]
        simp [List.mem_cons, h]

lemma sum_map_nonneg {α : Type} (l : List α) (f : α → ℝ) (h : ∀ a ∈ l, 0 ≤ f a) :
    0 ≤ (l.map f).sum := by
  induction l with
  | nil => simp
  | cons a t ih =>
      simp only [List.map_cons, List.sum_cons]
      have := h a (List.mem_cons_self a t)
      have := ih fun b hb => h b (List.mem_cons_of_mem a hb)
      linarith

/-! ### Geometry of the spatial hash -/

lemma vdist_nonneg (a b : V) : 0 ≤ vdist a b := Real.sqrt_nonneg _

lemma abs_fst_le_vdist (a b : V) : |b.1 - a.1| ≤ vdist a b := by
  rw [← Real.sqrt_sq_eq_abs]
  apply Real.sqrt_le_sqrt
  nlinarith [sq_nonneg (b.2 - a.2)]

lemma abs_snd_le_vdist (a b : V) : |b.2 - a.2| ≤ vdist a b := by
  rw [← Real.sqrt_sq_eq_abs]
  apply Real.sqrt_le_sqrt
  nlinarith [sq_nonneg (b.1 - a.1)]

lemma vdist_self (a : V) : vdist a a = 0 := by
  simp [vdist]

/-- Two reals closer than `cs` land in the same or an adjacent `cs`-cell. -/
lemma floor_adjacent (a b cs : ℝ) (hcs : 0 < cs) (h : |a - b| < cs) :
    |⌊a / cs⌋ - ⌊b / cs⌋| ≤ 1 := by
  rw [abs_sub_lt_iff] at h
  have key : ∀ x y : ℝ, x - y < cs → ⌊x / cs⌋ ≤ ⌊y / cs⌋ + 1 := by
    intro x y hxy
    have heq : (y + cs) / cs = y / cs + 1 := by field_simp
    have hx : x / cs ≤ y / cs + 1 := by
      rw [← heq]
      exact (div_le_div_iff_of_pos_right hcs).mpr (by linarith)
    have := Int.floor_le_floor hx
    rwa [Int.floor_add_one] at this
  have h1 := key a b h.1
  have h2 := key b a h.2
  rw [abs_le]
  omega

/-- Particles within `SMOOTHING_RADIUS` of a point lie in the 3×3 cell block
around that point's cell whenever the cell size is at least the radius. -/
lemma cell_near (cs : ℝ) (hcs : SMOOTHING_RADIUS ≤ cs) (q p : V)
    (h : vdist q p < SMOOTHING_RADIUS) :
    |(hash_position q cs).1 - (hash_position p cs).1| ≤ 1 ∧
    |(hash_position q cs).2 - (hash_position p cs).2| ≤ 1 := by
  have hcs0 : 0 < cs := lt_of_le_of_lt (vdist_nonneg q p) (lt_of_lt_of_le h hcs)
  have hd : vdist q p < cs := lt_of_lt_of_le h hcs
  constructor
  · exact floor_adjacent q.1 p.1 cs hcs0
      (lt_of_le_of_lt (by rw [abs_sub_comm]; exact abs_fst_le_vdist q p) hd)
  · exact floor_adjacent q.2 p.2 cs hcs0
      (lt_of_le_of_lt (by rw [abs_sub_comm]; exact abs_snd_le_vdist q p) hd)

lemma offsets_nodup : offsets.Nodup := by decide

lemma mem_offsets_iff (o : ℤ × ℤ) : o ∈ offsets ↔ |o.1| ≤ 1 ∧ |o.2| ≤ 1 := by
  obtain ⟨x, y⟩ := o
  constructor
  · intro h
    fin_cases h <;> norm_num
  · rintro ⟨h1, h2⟩
    simp only [abs_le] at h1 h2
    obtain ⟨h1a, h1b⟩ := h1
    obtain ⟨h2a, h2b⟩ := h2
    interval_cases x <;> interval_cases y <;> simp [offsets]

/-- The central equality behind the bounded neighbour search: with cell size at
least the smoothing radius, the 3×3 neighbour query of `cache_density_system`
computes the same density as a sum of `MASS * W` over the whole store. -/
lemma densityAt_eq_densityFull (cs : ℝ) (hcs : SMOOTHING_RADIUS ≤ cs)
    (store : List Particle) (p : V) :
    densityAt cs store p = densityFull store p := by
  unfold densityAt densityFull bucket
  have step1 : ∀ o : ℤ × ℤ,
      ((store.filter fun q =>
          decide (hash_position q.pos cs = hash_position p cs + o)).map
        (densityTerm p)).sum
      = (store.map fun q =>
          if hash_position q.pos cs - hash_position p cs = o
          then densityTerm p q else 0).sum := by
    intro o
    rw [sum_map_filter]
    apply congrArg List.sum
    have hfun : (fun q : Particle =>
        if decide (hash_position q.pos cs = hash_position p cs + o) = true
        then densityTerm p q else 0)
        = (fun q : Particle =>
        if hash_position q.pos cs - hash_position p cs = o
        then densityTerm p q else 0) := by
      funext q
      have hiff : (hash_position q.pos cs = hash_position p cs + o) ↔
          (hash_position q.pos cs - hash_position p cs = o) := by
        constructor
        · intro h
          rw [h]
          abel
        · intro h
          rw [← h]
          abel
      simp [hiff]
    rw [hfun]
  simp only [step1]
  rw [sum_map_swap]
  apply congrArg List.sum
  have hfun2 : (fun q : Particle =>
      (offsets.map fun o =>
        if hash_position q.pos cs - hash_position p cs = o
        then densityTerm p q else 0).sum)
      = (fun q : Particle =>
      MASS * smoothing_kernel SMOOTHING_RADIUS (vdist q.pos p)) := by
    funext q
    rw [sum_map_ite_eq offsets offsets_nodup]
    by_cases hmem : hash_position q.pos cs - hash_position p cs ∈ offsets
    · rw [if_pos hmem]
      unfold densityTerm
      by_cases hlt : vdist q.pos p < SMOOTHING_RADIUS
      · rw [if_pos hlt]
      · rw [if_neg hlt, smoothing_kernel_zero_of_ge _ _ (not_lt.mp hlt), mul_zero]
    · rw [if_neg hmem]
      have hfar : ¬ vdist q.pos p < SMOOTHING_RADIUS := by
        intro hlt
        exact hmem (by
          rw [mem_offsets_iff]
          exact cell_near cs hcs q.pos p hlt)
      rw [smoothing_kernel_zero_of_ge _ _ (not_lt.mp hfar), mul_zero]
  rw [hfun2]

/-- Claim C1: if the grid cell size is at least the smoothing radius, every
particle closer to the query point than the smoothing radius has its cell in
the 3×3 block of cells centred on the query point's cell (its cell offset is
one of the nine `(dx, dy)` the loops visit), and consequently the density
computed by the 3×3 neighbour query equals the density obtained by summing
`MASS * W` over all particles in the store. -/
theorem claim_C1_neighbor_search (cs : ℝ) (hcs : SMOOTHING_RADIUS ≤ cs)
    (store : List Particle) (p : V) :
    (∀ q ∈ store, vdist q.pos p < SMOOTHING_RADIUS →
      hash_position q.pos cs - hash_position p cs ∈ offsets) ∧
    densityAt cs store p = densityFull store p := by
  constructor
  · intro q _ hq
    rw [mem_offsets_iff]
    exact cell_near cs hcs q.pos p hq
  · exact densityAt_eq_densityFull cs hcs store p

/-- Witness for C1 with the program's density-pass cell size `25 = 5^2`, a
one-particle store and the origin as query point. -/
theorem claim_C1_neighbor_search_inst :
    SMOOTHING_RADIUS ≤ (25:ℝ) ∧
    ((∀ q ∈ [Particle.mk 0 ((0:ℝ), (0:ℝ))], vdist q.pos ((0:ℝ), (0:ℝ)) < SMOOTHING_RADIUS →
        hash_position q.pos 25 - hash_position ((0:ℝ), (0:ℝ)) 25 ∈ offsets) ∧
      densityAt 25 [Particle.mk 0 ((0:ℝ), (0:ℝ))] ((0:ℝ), (0:ℝ))
        = densityFull [Particle.mk 0 ((0:ℝ), (0:ℝ))] ((0:ℝ), (0:ℝ))) :=
  ⟨by norm_num [SMOOTHING_RADIUS],
   claim_C1_neighbor_search 25 (by norm_num [SMOOTHING_RADIUS]) _ _⟩

/-! ### Density cache lookup and self-contribution -/

/-- Looking up an entity id in an association list built by mapping over the
store finds the value computed for (the first store entry with) that id. -/
lemma lookup_map_store (g : Particle → ℝ) (l : List Particle) (p : Particle)
    (hp : p ∈ l) :
    ∃ q, q ∈ l ∧ q.id = p.id ∧
      List.lookup p.id (l.map fun x => (x.id, g x)) = some (g q) := by
  induction l with
  | nil => cases hp
  | cons a t ih =>
      by_cases h : p.id = a.id
      · refine ⟨a, List.mem_cons_self a t, h.symm, ?_⟩
        simp [List.lookup, h]
      · have hpt : p ∈ t := by
          rcases List.mem_cons.mp hp with h1 | h1
          · exact absurd (by rw [h1]) h
          · exact h1
        obtain ⟨q, hq, hid, hlook⟩ := ih hpt
        refine ⟨q, List.mem_cons_of_mem a hq, hid, ?_⟩
        have hne : (p.id == a.id) = false := by
          simp [h]
        simp [List.lookup, hne, hlook]

/-- Each term of the full density sum is non-negative. -/
lemma densityFull_term_nonneg (q : Particle) (position : V) :
    0 ≤ MASS * smoothing_kernel SMOOTHING_RADIUS (vdist q.pos position) := by
  apply mul_nonneg
  · norm_num [MASS]
  · exact smoothing_kernel_nonneg _ _

/-- The density cached for a member of the store splits off the particle's own
self-contribution `MASS * W(r, 0)`, the remainder being non-negative. -/
lemma density_self_decomp (store : List Particle) (q : Particle) (hq : q ∈ store) :
    ∃ rest, 0 ≤ rest ∧
      densityAt (SMOOTHING_RADIUS^2) store q.pos
        = MASS * smoothing_kernel SMOOTHING_RADIUS 0 + rest := by
  have hcs : SMOOTHING_RADIUS ≤ SMOOTHING_RADIUS^2 := by
    norm_num [SMOOTHING_RADIUS]
  rw [densityAt_eq_densityFull _ hcs]
  obtain ⟨s, t, rfl⟩ := List.append_of_mem hq
  refine ⟨(s.map fun x => MASS * smoothing_kernel SMOOTHING_RADIUS (vdist x.pos q.pos)).sum
      + (t.map fun x => MASS * smoothing_kernel SMOOTHING_RADIUS (vdist x.pos q.pos)).sum,
    ?_, ?_⟩
  · have h1 := sum_map_nonneg s
      (fun x => MASS * smoothing_kernel SMOOTHING_RADIUS (vdist x.pos q.pos))
      (fun x _ => densityFull_term_nonneg x q.pos)
    have h2 := sum_map_nonneg t
      (fun x => MASS * smoothing_kernel SMOOTHING_RADIUS (vdist x.pos q.pos))
      (fun x _ => densityFull_term_nonneg x q.pos)
    linarith
  · unfold densityFull
    rw [List.map_append, List.sum_append, List.map_cons, List.sum_cons, vdist_self]
    ring

/-- Claim C2: after the density pass, every particle enumerated from the store
has an entry in the rebuilt cache; the entry is a real number (hence finite)
and non-negative, and its sum includes the particle's own self-contribution
`MASS * W(r, 0)` at full kernel weight, the remaining neighbour sum being
non-negative. -/
theorem claim_C2_cache_entries (store : List Particle) (p : Particle)
    (hp : p ∈ store) :
    ∃ d : ℝ, List.lookup p.id (cache_density_system store) = some d ∧ 0 ≤ d ∧
      ∃ rest, 0 ≤ rest ∧ d = MASS * smoothing_kernel SMOOTHING_RADIUS 0 + rest := by
  obtain ⟨q, hq, _, hlook⟩ := lookup_map_store
    (fun x => densityAt (SMOOTHING_RADIUS^2) store x.pos) store p hp
  obtain ⟨rest, hrest, hdec⟩ := density_self_decomp store q hq
  refine ⟨densityAt (SMOOTHING_RADIUS^2) store q.pos, hlook, ?_, rest, hrest, hdec⟩
  rw [hdec]
  have hself : 0 ≤ MASS * smoothing_kernel SMOOTHING_RADIUS 0 := by
    apply mul_nonneg
    · norm_num [MASS]
    · exact smoothing_kernel_nonneg _ _
  linarith

/-- Witness for C2: a one-particle store. -/
theorem claim_C2_cache_entries_inst :
    Particle.mk 7 ((0:ℝ), (0:ℝ)) ∈ [Particle.mk 7 ((0:ℝ), (0:ℝ))] ∧
    ∃ d : ℝ, List.lookup 7 (cache_density_system [Particle.mk 7 ((0:ℝ), (0:ℝ))]) = some d ∧
      0 ≤ d ∧ ∃ rest, 0 ≤ rest ∧
        d = MASS * smoothing_kernel SMOOTHING_RADIUS 0 + rest :=
  ⟨List.mem_cons_self _ _,
   claim_C2_cache_entries [Particle.mk 7 ((0:ℝ), (0:ℝ))] (Particle.mk 7 ((0:ℝ), (0:ℝ)))
     (List.mem_cons_self _ _)⟩

/-- Claim C10: every cached density is at least the self-contribution
`MASS * W(r, 0) = 6 * MASS / (pi * r^2)`, which with the program's constants
strictly exceeds the `1e-6` division floor, so the clamp `density.max(1e-6)`
of `velocity_system` leaves every cached value unchanged. -/
theorem claim_C10_clamp_no_op (store : List Particle) (p : Particle)
    (hp : p ∈ store) (d : ℝ)
    (hd : List.lookup p.id (cache_density_system store) = some d) :
    MASS * smoothing_kernel SMOOTHING_RADIUS 0 ≤ d ∧
    MASS * smoothing_kernel SMOOTHING_RADIUS 0
      = 6 * MASS / (Real.pi * SMOOTHING_RADIUS^2) ∧
    1e-6 < d ∧ density_safe d = d := by
  obtain ⟨q, hq, _, hlook⟩ := lookup_map_store
    (fun x => densityAt (SMOOTHING_RADIUS^2) store x.pos) store p hp
  have hdq : d = densityAt (SMOOTHING_RADIUS^2) store q.pos := by
    have hcache : List.lookup p.id (cache_density_system store)
        = some (densityAt (SMOOTHING_RADIUS^2) store q.pos) := hlook
    rw [hd] at hcache
    exact Option.some.inj hcache
  obtain ⟨rest, hrest, hdec⟩ := density_self_decomp store q hq
  have hself : MASS * smoothing_kernel SMOOTHING_RADIUS 0 = 12 / Real.pi := by
    unfold MASS smoothing_kernel SMOOTHING_RADIUS
    rw [if_neg (by norm_num)]
    field_simp
    ring
  have hpi_pos := Real.pi_pos
  have hpi_lt : Real.pi < 3.15 := Real.pi_lt_315
  have hfloor : (1e-6:ℝ) < 12 / Real.pi := by
    rw [lt_div_iff hpi_pos]
    nlinarith
  have hle : MASS * smoothing_kernel SMOOTHING_RADIUS 0 ≤ d := by
    rw [hdq, hdec]
    linarith
  have hgt : (1e-6:ℝ) < d := by
    rw [hself] at hle
    linarith
  refine ⟨hle, ?_, hgt, ?_⟩
  · rw [hself]
    unfold MASS SMOOTHING_RADIUS
    field_simp
    ring
  · unfold density_safe
    exact max_eq_left (le_of_lt hgt)

/-- Witness for C10: a one-particle store; the lookup value is computed by
unfolding the cache definition. -/
theorem claim_C10_clamp_no_op_inst :
    Particle.mk 3 ((0:ℝ), (0:ℝ)) ∈ [Particle.mk 3 ((0:ℝ), (0:ℝ))] ∧
    List.lookup 3 (cache_density_system [Particle.mk 3 ((0:ℝ), (0:ℝ))])
      = some (densityAt (SMOOTHING_RADIUS^2) [Particle.mk 3 ((0:ℝ), (0:ℝ))] ((0:ℝ), (0:ℝ))) ∧
    (MASS * smoothing_kernel SMOOTHING_RADIUS 0
        ≤ densityAt (SMOOTHING_RADIUS^2) [Particle.mk 3 ((0:ℝ), (0:ℝ))] ((0:ℝ), (0:ℝ)) ∧
     MASS * smoothing_kernel SMOOTHING_RADIUS 0
        = 6 * MASS / (Real.pi * SMOOTHING_RADIUS^2) ∧
     1e-6 < densityAt (SMOOTHING_RADIUS^2) [Particle.mk 3 ((0:ℝ), (0:ℝ))] ((0:ℝ), (0:ℝ)) ∧
     density_safe (densityAt (SMOOTHING_RADIUS^2) [Particle.mk 3 ((0:ℝ), (0:ℝ))] ((0:ℝ), (0:ℝ)))
        = densityAt (SMOOTHING_RADIUS^2) [Particle.mk 3 ((0:ℝ), (0:ℝ))] ((0:ℝ), (0:ℝ))) :=
  ⟨List.mem_cons_self _ _, rfl,
   claim_C10_clamp_no_op [Particle.mk 3 ((0:ℝ), (0:ℝ))] (Particle.mk 3 ((0:ℝ), (0:ℝ)))
     (List.mem_cons_self _ _) _ rfl⟩

/-! ### Pressure force (src/main.rs lines 137-167) -/

/-- One neighbour's contribution inside the 3×3 loop of
`calculate_pressure_force` (src/main.rs lines 148-161).  The pair is skipped
(`continue`, contributing zero) when `distance <= f32::EPSILON` or
`distance >= SMOOTHING_RADIUS`; the `distance.is_nan()` disjunct has no
counterpart over ℝ, where a distance is never NaN.  Otherwise the code
accumulates `-density_to_pressure(density) * direction * slope * MASS /
density` with `direction = (neighbor_position - point) / distance` and
`slope = smoothing_kernel_derivative(SMOOTHING_RADIUS, distance)`; the scalar
factors of that `f32`/`Vec3` product are collected into a single scalar
multiple of `direction`. -/
def pairPressureForce (point neighbor_position : V) (density : ℝ) : V :=
  let distance := vdist neighbor_position point
  if distance ≤ f32Epsilon ∨ distance ≥ SMOOTHING_RADIUS then 0
  else ((-(density_to_pressure density))
      * smoothing_kernel_derivative SMOOTHING_RADIUS distance * MASS / density)
    • ((1 / distance) • (neighbor_position - point))

/-- `calculate_pressure_force` (src/main.rs lines 137-167): the sum of the
pair contributions over the 3×3 block of buckets around `point_cell`. -/
def calculate_pressure_force (cs : ℝ) (store : List Particle) (point : V)
    (point_cell : ℤ × ℤ) (density : ℝ) : V :=
  (offsets.map fun o =>
    ((bucket cs store (point_cell + o)).map fun q =>
      pairPressureForce point q.pos density).sum).sum

/-- Claim C3, amended: for a neighbour at distance `d` with
`f32::EPSILON < d < SMOOTHING_RADIUS` the pair contribution equals
`-pressure(density) * ((p_j - p_i)/d) * W'(r, d) * MASS / density`, and the
pair contributes exactly zero whenever `d ≤ f32::EPSILON` (in particular when
`d` is exactly zero) or `d ≥ SMOOTHING_RADIUS`.  The skip threshold of the
code is `f32::EPSILON = 2^-23`, not exactly zero as the claim states. -/
theorem claim_C3_pair_force (point np : V) (density : ℝ)
    (h1 : f32Epsilon < vdist np point) (h2 : vdist np point < SMOOTHING_RADIUS) :
    pairPressureForce point np density
      = ((-(density_to_pressure density))
          * smoothing_kernel_derivative SMOOTHING_RADIUS (vdist np point)
          * MASS / density)
        • ((1 / vdist np point) • (np - point)) ∧
    (∀ (p q : V) (ρ : ℝ),
      vdist q p ≤ f32Epsilon ∨ SMOOTHING_RADIUS ≤ vdist q p →
      pairPressureForce p q ρ = 0) := by
  constructor
  · unfold pairPressureForce
    rw [if_neg]
    push_neg
    exact ⟨h1, h2⟩
  · intro p q ρ h
    unfold pairPressureForce
    rw [if_pos h]

/-- Witness for C3 at `point = (0,0)`, `np = (3,0)`, `density = 1`. -/
theorem claim_C3_pair_force_inst :
    f32Epsilon < vdist ((3:ℝ), (0:ℝ)) ((0:ℝ), (0:ℝ)) ∧
    vdist ((3:ℝ), (0:ℝ)) ((0:ℝ), (0:ℝ)) < SMOOTHING_RADIUS ∧
    (pairPressureForce ((0:ℝ), (0:ℝ)) ((3:ℝ), (0:ℝ)) 1
        = ((-(density_to_pressure 1))
            * smoothing_kernel_derivative SMOOTHING_RADIUS
                (vdist ((3:ℝ), (0:ℝ)) ((0:ℝ), (0:ℝ)))
            * MASS / 1)
          • ((1 / vdist ((3:ℝ), (0:ℝ)) ((0:ℝ), (0:ℝ)))
            • (((3:ℝ), (0:ℝ)) - ((0:ℝ), (0:ℝ)))) ∧
     (∀ (p q : V) (ρ : ℝ),
        vdist q p ≤ f32Epsilon ∨ SMOOTHING_RADIUS ≤ vdist q p →
        pairPressureForce p q ρ = 0)) := by
  have hv : vdist ((3:ℝ), (0:ℝ)) ((0:ℝ), (0:ℝ)) = 3 := by
    unfold vdist
    norm_num
    rw [show (9:ℝ) = 3^2 by norm_num, Real.sqrt_sq (by norm_num)]
  have h1 : f32Epsilon < vdist ((3:ℝ), (0:ℝ)) ((0:ℝ), (0:ℝ)) := by
    rw [hv]
    norm_num [f32Epsilon]
  have h2 : vdist ((3:ℝ), (0:ℝ)) ((0:ℝ), (0:ℝ)) < SMOOTHING_RADIUS := by
    rw [hv]
    norm_num [SMOOTHING_RADIUS]
  exact ⟨h1, h2, claim_C3_pair_force ((0:ℝ), (0:ℝ)) ((3:ℝ), (0:ℝ)) 1 h1 h2⟩

/-- Counterexample to C3 as stated: at distance `2^-24`, which is positive
(not "exactly zero"), NaN-free and below the smoothing radius, the code skips
the pair (contribution zero) while the claim's formula gives a non-zero
vector. -/
theorem claim_C3_cex :
    pairPressureForce ((0:ℝ), (0:ℝ)) ((1/16777216 : ℝ), (0:ℝ)) 1 = 0 ∧
    ((-(density_to_pressure 1))
        * smoothing_kernel_derivative SMOOTHING_RADIUS
            (vdist ((1/16777216 : ℝ), (0:ℝ)) ((0:ℝ), (0:ℝ)))
        * MASS / 1)
      • ((1 / vdist ((1/16777216 : ℝ), (0:ℝ)) ((0:ℝ), (0:ℝ)))
        • (((1/16777216 : ℝ), (0:ℝ)) - ((0:ℝ), (0:ℝ)))) ≠ 0 := by
  have hv : vdist ((1/16777216 : ℝ), (0:ℝ)) ((0:ℝ), (0:ℝ)) = 1/16777216 := by
    show Real.sqrt (((0:ℝ) - 1/16777216)^2 + ((0:ℝ) - 0)^2) = 1/16777216
    rw [show ((0:ℝ) - 1/16777216)^2 + ((0:ℝ) - 0)^2 = (1/16777216)^2 by norm_num,
      Real.sqrt_sq (by norm_num)]
  constructor
  · unfold pairPressureForce
    rw [hv, if_pos (Or.inl (by norm_num [f32Epsilon]))]
  · rw [hv]
    apply smul_ne_zero
    · have hskd : smoothing_kernel_derivative SMOOTHING_RADIUS (1/16777216)
          = (1/16777216 - 5) * (12 / (5^4 * Real.pi)) := by
        unfold smoothing_kernel_derivative SMOOTHING_RADIUS
        rw [if_neg (by norm_num)]
      rw [hskd]
      have hdp : -(density_to_pressure 1) = 9998 := by
        unfold density_to_pressure TARGET_DENSITY PRESSURE_MULTIPLIER
        norm_num
      rw [hdp]
      apply div_ne_zero
      · apply mul_ne_zero
        · apply mul_ne_zero
          · norm_num
          · apply mul_ne_zero
            · norm_num
            · apply div_ne_zero
              · norm_num
              · exact mul_ne_zero (by norm_num) Real.pi_ne_zero
        · norm_num [MASS]
      · norm_num
    · apply smul_ne_zero
      · norm_num
      · intro h
        rw [Prod.mk_sub_mk, Prod.mk_eq_zero] at h
        norm_num at h

/-! ### Boundary enforcement (src/main.rs lines 265-279) -/

/-- `boundary_collision_system`, per particle.  Both axis conditions test the
`position` read before any mutation; on an out-of-bounds axis the velocity
component is multiplied by `-DAMPING_FACTOR` and the position component is
clamped (Rust `clamp(lo, hi)` equals `min (max x lo) hi` for `lo ≤ hi`).
Returns the new `(position, velocity)`. -/
def boundary_collision_system (position velocity : V) : V × V :=
  let vx := if position.1 < -(WIDTH/2) ∨ position.1 > WIDTH/2
            then velocity.1 * (-DAMPING_FACTOR) else velocity.1
  let px := if position.1 < -(WIDTH/2) ∨ position.1 > WIDTH/2
            then min (max position.1 (-(WIDTH/2))) (WIDTH/2) else position.1
  let vy := if position.2 < -(HEIGHT/2) ∨ position.2 > HEIGHT/2
            then velocity.2 * (-DAMPING_FACTOR) else velocity.2
  let py := if position.2 < -(HEIGHT/2) ∨ position.2 > HEIGHT/2
            then min (max position.2 (-(HEIGHT/2))) (HEIGHT/2) else position.2
  ((px, py), (vx, vy))

/-- Claim C4, amended: for every particle and velocity, after the boundary
enforcer runs the position lies in `[-W/2, W/2] × [-H/2, H/2]`; on each axis
the velocity component is replaced by `-DAMPING_FACTOR` times its
pre-enforcement value exactly when that axis was out of bounds (clamped) and
is unchanged otherwise; and for a *non-zero* pre-enforcement component, the
sign flips if and only if the axis was clamped.  (The claim's unrestricted
"sign flipped iff clamped" fails for a zero component, see the
counterexample.) -/
theorem claim_C4_boundary (position velocity : V) :
    (-(WIDTH/2) ≤ (boundary_collision_system position velocity).1.1 ∧
      (boundary_collision_system position velocity).1.1 ≤ WIDTH/2) ∧
    (-(HEIGHT/2) ≤ (boundary_collision_system position velocity).1.2 ∧
      (boundary_collision_system position velocity).1.2 ≤ HEIGHT/2) ∧
    ((position.1 < -(WIDTH/2) ∨ position.1 > WIDTH/2) →
      (boundary_collision_system position velocity).2.1
        = -DAMPING_FACTOR * velocity.1) ∧
    (¬(position.1 < -(WIDTH/2) ∨ position.1 > WIDTH/2) →
      (boundary_collision_system position velocity).2.1 = velocity.1) ∧
    ((position.2 < -(HEIGHT/2) ∨ position.2 > HEIGHT/2) →
      (boundary_collision_system position velocity).2.2
        = -DAMPING_FACTOR * velocity.2) ∧
    (¬(position.2 < -(HEIGHT/2) ∨ position.2 > HEIGHT/2) →
      (boundary_collision_system position velocity).2.2 = velocity.2) ∧
    (velocity.1 ≠ 0 →
      (Real.sign ((boundary_collision_system position velocity).2.1)
          ≠ Real.sign velocity.1
        ↔ (position.1 < -(WIDTH/2) ∨ position.1 > WIDTH/2))) ∧
    (velocity.2 ≠ 0 →
      (Real.sign ((boundary_collision_system position velocity).2.2)
          ≠ Real.sign velocity.2
        ↔ (position.2 < -(HEIGHT/2) ∨ position.2 > HEIGHT/2))) := by
  have hsignflip : ∀ w : ℝ, w ≠ 0 → Real.sign (w * -DAMPING_FACTOR) ≠ Real.sign w := by
    intro w hw
    rcases hw.lt_or_lt with h | h
    · have h1 : 0 < w * -DAMPING_FACTOR := by
        have : (0:ℝ) < DAMPING_FACTOR := by norm_num [DAMPING_FACTOR]
        nlinarith
      rw [Real.sign_of_pos h1, Real.sign_of_neg h]
      norm_num
    · have h1 : w * -DAMPING_FACTOR < 0 := by
        have : (0:ℝ) < DAMPING_FACTOR := by norm_num [DAMPING_FACTOR]
        nlinarith
      rw [Real.sign_of_neg h1, Real.sign_of_pos h]
      norm_num
  have hW : -(WIDTH/2) ≤ WIDTH/2 := by norm_num [WIDTH]
  have hH : -(HEIGHT/2) ≤ HEIGHT/2 := by norm_num [HEIGHT]
  have e1 : (boundary_collision_system position velocity).1.1
      = if position.1 < -(WIDTH/2) ∨ position.1 > WIDTH/2
        then min (max position.1 (-(WIDTH/2))) (WIDTH/2) else position.1 := rfl
  have e2 : (boundary_collision_system position velocity).1.2
      = if position.2 < -(HEIGHT/2) ∨ position.2 > HEIGHT/2
        then min (max position.2 (-(HEIGHT/2))) (HEIGHT/2) else position.2 := rfl
  have e3 : (boundary_collision_system position velocity).2.1
      = if position.1 < -(WIDTH/2) ∨ position.1 > WIDTH/2
        then velocity.1 * (-DAMPING_FACTOR) else velocity.1 := rfl
  have e4 : (boundary_collision_system position velocity).2.2
      = if position.2 < -(HEIGHT/2) ∨ position.2 > HEIGHT/2
        then velocity.2 * (-DAMPING_FACTOR) else velocity.2 := rfl
  rw [e1, e2, e3, e4]
  by_cases hx : position.1 < -(WIDTH/2) ∨ position.1 > WIDTH/2
  · by_cases hy : position.2 < -(HEIGHT/2) ∨ position.2 > HEIGHT/2
    · rw [if_pos hx, if_pos hy, if_pos hx, if_pos hy]
      exact ⟨⟨le_min (le_max_right _ _) hW, min_le_right _ _⟩,
        ⟨le_min (le_max_right _ _) hH, min_le_right _ _⟩,
        fun _ => by ring, fun h => absurd hx h,
        fun _ => by ring, fun h => absurd hy h,
        fun hvx => iff_of_true (hsignflip _ hvx) hx,
        fun hvy => iff_of_true (hsignflip _ hvy) hy⟩
    · have hy2 := hy
      push_neg at hy2
      rw [if_pos hx, if_neg hy, if_pos hx, if_neg hy]
      exact ⟨⟨le_min (le_max_right _ _) hW, min_le_right _ _⟩,
        ⟨hy2.1, hy2.2⟩,
        fun _ => by ring, fun h => absurd hx h,
        fun h => absurd h hy, fun _ => rfl,
        fun hvx => iff_of_true (hsignflip _ hvx) hx,
        fun _ => iff_of_false (fun hne => hne rfl) hy⟩
  · by_cases hy : position.2 < -(HEIGHT/2) ∨ position.2 > HEIGHT/2
    · have hx2 := hx
      push_neg at hx2
      rw [if_neg hx, if_pos hy, if_neg hx, if_pos hy]
      exact ⟨⟨hx2.1, hx2.2⟩,
        ⟨le_min (le_max_right _ _) hH, min_le_right _ _⟩,
        fun h => absurd h hx, fun _ => rfl,
        fun _ => by ring, fun h => absurd hy h,
        fun _ => iff_of_false (fun hne => hne rfl) hx,
        fun hvy => iff_of_true (hsignflip _ hvy) hy⟩
    · have hx2 := hx
      push_neg at hx2
      have hy2 := hy
      push_neg at hy2
      rw [if_neg hx, if_neg hy, if_neg hx, if_neg hy]
      exact ⟨⟨hx2.1, hx2.2⟩, ⟨hy2.1, hy2.2⟩,
        fun h => absurd h hx, fun _ => rfl,
        fun h => absurd h hy, fun _ => rfl,
        fun _ => iff_of_false (fun hne => hne rfl) hx,
        fun _ => iff_of_false (fun hne => hne rfl) hy⟩

/-- Witness for C4 at `position = (60, 10)`, `velocity = (3, -4)`: the x axis
is clamped, the y axis is not; the non-zero side conditions of the sign
conjuncts are discharged at this input. -/
theorem claim_C4_boundary_inst :
    ((-(WIDTH/2) ≤ (boundary_collision_system ((60:ℝ), (10:ℝ)) ((3:ℝ), (-4:ℝ))).1.1 ∧
       (boundary_collision_system ((60:ℝ), (10:ℝ)) ((3:ℝ), (-4:ℝ))).1.1 ≤ WIDTH/2) ∧
     (-(HEIGHT/2) ≤ (boundary_collision_system ((60:ℝ), (10:ℝ)) ((3:ℝ), (-4:ℝ))).1.2 ∧
       (boundary_collision_system ((60:ℝ), (10:ℝ)) ((3:ℝ), (-4:ℝ))).1.2 ≤ HEIGHT/2) ∧
     (((60:ℝ) < -(WIDTH/2) ∨ (60:ℝ) > WIDTH/2) →
       (boundary_collision_system ((60:ℝ), (10:ℝ)) ((3:ℝ), (-4:ℝ))).2.1
         = -DAMPING_FACTOR * 3) ∧
     (¬((60:ℝ) < -(WIDTH/2) ∨ (60:ℝ) > WIDTH/2) →
       (boundary_collision_system ((60:ℝ), (10:ℝ)) ((3:ℝ), (-4:ℝ))).2.1 = 3) ∧
     (((10:ℝ) < -(HEIGHT/2) ∨ (10:ℝ) > HEIGHT/2) →
       (boundary_collision_system ((60:ℝ), (10:ℝ)) ((3:ℝ), (-4:ℝ))).2.2
         = -DAMPING_FACTOR * (-4)) ∧
     (¬((10:ℝ) < -(HEIGHT/2) ∨ (10:ℝ) > HEIGHT/2) →
       (boundary_collision_system ((60:ℝ), (10:ℝ)) ((3:ℝ), (-4:ℝ))).2.2 = -4) ∧
     ((3:ℝ) ≠ 0 →
       (Real.sign ((boundary_collision_system ((60:ℝ), (10:ℝ)) ((3:ℝ), (-4:ℝ))).2.1)
           ≠ Real.sign (3:ℝ)
         ↔ ((60:ℝ) < -(WIDTH/2) ∨ (60:ℝ) > WIDTH/2))) ∧
     ((-4:ℝ) ≠ 0 →
       (Real.sign ((boundary_collision_system ((60:ℝ), (10:ℝ)) ((3:ℝ), (-4:ℝ))).2.2)
           ≠ Real.sign (-4:ℝ)
         ↔ ((10:ℝ) < -(HEIGHT/2) ∨ (10:ℝ) > HEIGHT/2)))) ∧
    (Real.sign ((boundary_collision_system ((60:ℝ), (10:ℝ)) ((3:ℝ), (-4:ℝ))).2.1)
        ≠ Real.sign (3:ℝ)
      ↔ ((60:ℝ) < -(WIDTH/2) ∨ (60:ℝ) > WIDTH/2)) ∧
    (Real.sign ((boundary_collision_system ((60:ℝ), (10:ℝ)) ((3:ℝ), (-4:ℝ))).2.2)
        ≠ Real.sign (-4:ℝ)
      ↔ ((10:ℝ) < -(HEIGHT/2) ∨ (10:ℝ) > HEIGHT/2)) :=
  ⟨claim_C4_boundary ((60:ℝ), (10:ℝ)) ((3:ℝ), (-4:ℝ)),
   (claim_C4_boundary ((60:ℝ), (10:ℝ)) ((3:ℝ), (-4:ℝ))).2.2.2.2.2.2.1 (by norm_num),
   (claim_C4_boundary ((60:ℝ), (10:ℝ)) ((3:ℝ), (-4:ℝ))).2.2.2.2.2.2.2 (by norm_num)⟩

/-- Counterexample to C4 as stated: a particle at `x = 60` with zero x
velocity.  The x axis is clamped (60 > W/2 = 50), yet the velocity sign does
not flip: `0 * -DAMPING_FACTOR = 0` and `sign 0 = sign 0`.  So "sign flipped
iff clamped" fails at a zero velocity component. -/
theorem claim_C4_cex :
    ((60:ℝ) < -(WIDTH/2) ∨ (60:ℝ) > WIDTH/2) ∧
    ¬(Real.sign ((boundary_collision_system ((60:ℝ), (0:ℝ)) ((0:ℝ), (0:ℝ))).2.1)
        ≠ Real.sign ((0:ℝ))
      ↔ ((60:ℝ) < -(WIDTH/2) ∨ (60:ℝ) > WIDTH/2)) := by
  have hx : (60:ℝ) < -(WIDTH/2) ∨ (60:ℝ) > WIDTH/2 := Or.inr (by norm_num [WIDTH])
  refine ⟨hx, ?_⟩
  intro hiff
  have hflip := hiff.mpr hx
  have hval : (boundary_collision_system ((60:ℝ), (0:ℝ)) ((0:ℝ), (0:ℝ))).2.1 = 0 := by
    norm_num [boundary_collision_system, WIDTH, HEIGHT]
  exact hflip (by rw [hval])

/-! ### Integration (src/main.rs lines 211-263) -/

/-- The gravity vector `Vec3::new(0.0, -1.0, 0.0) * GRAVITY` (z dropped). -/
def gravityVec : V := (0, -GRAVITY)

/-- Per-particle velocity update of `velocity_system` (src/main.rs lines
231-252) for a particle with a density-cache hit, taking the already-computed
pressure acceleration as an argument.  Real arithmetic cannot overflow or
produce NaN, so the two `is_finite` tests are oracle `Bool` parameters:
`accel_finite` is the outcome of `pressure_acceleration.is_finite()` and
`vel_finite` the outcome of `velocity.0.is_finite()` on the damped result. -/
def velocity_system_step (accel_finite vel_finite : Bool)
    (velocity pressure_acceleration : V) (delta_raw : ℝ) : V :=
  let delta_time := max delta_raw 1e-6
  let v1 := if accel_finite then velocity + delta_time • pressure_acceleration
            else velocity
  let v2 := v1 + delta_time • gravityVec
  let v3 := DAMPING_FACTOR • v2
  if vel_finite then v3 else 0

/-- Per-particle position update of `update_system` (src/main.rs lines
255-263); `vel_finite` is the oracle outcome of `velocity.0.is_finite()`. -/
def update_system_step (vel_finite : Bool) (translation velocity : V)
    (delta_raw : ℝ) : V :=
  let delta_time := max delta_raw 1e-6
  if vel_finite then translation + delta_time • velocity else translation

/-- Claim C7: integration uses `dt = max(elapsed, 1e-6)`, which is at least
the positive epsilon `1e-6`; on the normal (all-finite) path the velocity
becomes `damping * (v + dt * (pressureAcceleration + gravity))` — i.e. add
`(a + g) * dt`, then damp — and the position gains `velocity * dt`; a
non-finite damped velocity is reset to zero, and a non-finite velocity is not
propagated into the position. -/
theorem claim_C7_integration (velocity pressure_acceleration translation : V)
    (delta_raw : ℝ) :
    1e-6 ≤ max delta_raw 1e-6 ∧ 0 < max delta_raw 1e-6 ∧
    velocity_system_step true true velocity pressure_acceleration delta_raw
      = DAMPING_FACTOR •
          (velocity + (max delta_raw 1e-6) • (pressure_acceleration + gravityVec)) ∧
    update_system_step true translation
        (velocity_system_step true true velocity pressure_acceleration delta_raw)
        delta_raw
      = translation + (max delta_raw 1e-6) •
          velocity_system_step true true velocity pressure_acceleration delta_raw ∧
    velocity_system_step true false velocity pressure_acceleration delta_raw = 0 ∧
    update_system_step false translation velocity delta_raw = translation := by
  refine ⟨le_max_right _ _, lt_of_lt_of_le (by norm_num) (le_max_right _ _),
    ?_, rfl, rfl, rfl⟩
  show DAMPING_FACTOR •
      ((velocity + (max delta_raw 1e-6) • pressure_acceleration)
        + (max delta_raw 1e-6) • gravityVec)
    = DAMPING_FACTOR •
      (velocity + (max delta_raw 1e-6) • (pressure_acceleration + gravityVec))
  rw [smul_add (max delta_raw 1e-6), add_assoc]

/-- Claim C6, amended: when the pressure acceleration is non-finite, only the
pressure increment is skipped; gravity and damping are still applied, so the
particle's velocity this tick equals `damping * (v + gravity * dt)` — the
same as if the acceleration had been zero — and is in general *not* the
previous velocity. -/
theorem claim_C6_nonfinite_accel (velocity pressure_acceleration : V)
    (delta_raw : ℝ) :
    velocity_system_step false true velocity pressure_acceleration delta_raw
      = DAMPING_FACTOR • (velocity + (max delta_raw 1e-6) • gravityVec) ∧
    velocity_system_step false true velocity pressure_acceleration delta_raw
      = velocity_system_step true true velocity 0 delta_raw := by
  constructor
  · rfl
  · show DAMPING_FACTOR • (velocity + (max delta_raw 1e-6) • gravityVec)
      = DAMPING_FACTOR •
          ((velocity + (max delta_raw 1e-6) • (0:V)) + (max delta_raw 1e-6) • gravityVec)
    rw [smul_zero, add_zero]

/-- Counterexample to C6 as stated: a resting particle whose pressure
acceleration is non-finite still receives gravity and damping — its velocity
after the tick is `(0, -9.9)`, not the retained previous value `(0, 0)`. -/
theorem claim_C6_cex :
    velocity_system_step false true ((0:ℝ), (0:ℝ)) ((5:ℝ), (5:ℝ)) 1
      ≠ ((0:ℝ), (0:ℝ)) := by
  intro h
  have he : velocity_system_step false true ((0:ℝ), (0:ℝ)) ((5:ℝ), (5:ℝ)) 1
      = DAMPING_FACTOR • (((0:ℝ), (0:ℝ)) + (max (1:ℝ) 1e-6) • gravityVec) := rfl
  rw [he] at h
  have h2 := congrArg Prod.snd h
  simp only [Prod.smul_snd, Prod.snd_add, smul_eq_mul] at h2
  norm_num [gravityVec, GRAVITY, DAMPING_FACTOR] at h2

/-! ### Pairwise collision resolution (src/main.rs lines 281-330) -/

/-- `Vec3::length` of a z = 0 vector. -/
def vlen (v : V) : ℝ := Real.sqrt (v.1^2 + v.2^2)

/-- glam `Vec3::normalize` = `v * (1/length)`.  For the zero vector the `f32`
result is a NaN vector (`0 * inf`), modelled as `none`. -/
def vnormalize (v : V) : Option V :=
  if v = 0 then none else some ((vlen v)⁻¹ • v)

/-- Dot product of z = 0 vectors. -/
def dot (a b : V) : ℝ := a.1 * b.1 + a.2 * b.2

/-- One unordered pair of `collision_system` (src/main.rs lines 292-329),
restricted to a two-particle system so that the collected impulses are
exactly the applied ones.  When `normalize` yields NaN (`none`), the NaN
propagates: `velocity_along_normal` is NaN, the skip guard `NaN > 0.0` is
false, the impulse is NaN and both pushed impulses make the velocities
non-finite — hence `(none, none)`.  Otherwise the code computes
`impulse = -(1 + E) * velocity_along_normal * MASS`, pushes
`impulse * normal * -1` for `a` and `impulse * normal` for `b`, and the apply
pass adds `impulse_vec / MASS * DAMPING_FACTOR` to each velocity. -/
def collision_system_pair (position_a position_b velocity_a velocity_b : V) :
    Option V × Option V :=
  if vdist position_a position_b < 2 * RADIUS then
    match vnormalize (position_b - position_a) with
    | none => (none, none)
    | some normal =>
      let velocity_along_normal := dot (velocity_b - velocity_a) normal
      if velocity_along_normal > 0 then (some velocity_a, some velocity_b)
      else
        let impulse := -(1 + E) * velocity_along_normal * MASS
        (some (velocity_a + ((1/MASS) * DAMPING_FACTOR) • ((-impulse) • normal)),
         some (velocity_b + ((1/MASS) * DAMPING_FACTOR) • (impulse • normal)))
  else (some velocity_a, some velocity_b)

lemma dot_add_left (x y n : V) : dot (x + y) n = dot x n + dot y n := by
  unfold dot
  rw [Prod.fst_add, Prod.snd_add]
  ring

lemma dot_smul_left (c : ℝ) (x n : V) : dot (c • x) n = c * dot x n := by
  unfold dot
  rw [Prod.smul_fst, Prod.smul_snd, smul_eq_mul, smul_eq_mul]
  ring

lemma vlen_eq_vdist (a b : V) : vlen (b - a) = vdist a b := by
  unfold vlen vdist
  rw [Prod.fst_sub, Prod.snd_sub]

/-- Claim C5, amended: for an unordered pair at *positive* distance below
`2 * RADIUS`: the unit contact normal exists; if the relative velocity
projected on it is non-negative the pair's velocities are unchanged (the code
skips for a positive projection, and a zero projection yields a zero
impulse); otherwise the two velocities change by equal-and-opposite amounts
`∓dv` along the normal with `dv` derived from
`impulse = -(1+E) * projection * MASS` scaled by `DAMPING_FACTOR / MASS`, and
the post-impulse relative velocity along the normal is non-negative.  (The
claim as stated also covers coincident pairs, where the code instead
normalizes a zero vector and produces non-finite velocities — see the
counterexample.) -/
theorem claim_C5_pair_impulse (pa pb va vb : V)
    (hdist : vdist pa pb < 2 * RADIUS) (hpos : 0 < vdist pa pb) :
    ∃ n : V, vnormalize (pb - pa) = some n ∧ dot n n = 1 ∧
      (0 ≤ dot (vb - va) n →
        collision_system_pair pa pb va vb = (some va, some vb)) ∧
      (dot (vb - va) n < 0 →
        ∃ dv : V,
          collision_system_pair pa pb va vb = (some (va - dv), some (vb + dv)) ∧
          dv = ((1/MASS) * DAMPING_FACTOR)
              • ((-(1 + E) * dot (vb - va) n * MASS) • n) ∧
          0 ≤ dot ((vb + dv) - (va - dv)) n) := by
  have hne : pb - pa ≠ 0 := by
    intro h
    rw [← vlen_eq_vdist, h] at hpos
    unfold vlen at hpos
    simp at hpos
  set n : V := (vlen (pb - pa))⁻¹ • (pb - pa) with hndef
  have hnorm : vnormalize (pb - pa) = some n := by
    unfold vnormalize
    rw [if_neg hne]
  have hsum_pos : 0 < (pb - pa).1^2 + (pb - pa).2^2 := by
    have hl : 0 < vlen (pb - pa) := by
      rw [vlen_eq_vdist]
      exact hpos
    unfold vlen at hl
    exact Real.sqrt_pos.mp hl
  have hsq : (vlen (pb - pa))^2 = (pb - pa).1^2 + (pb - pa).2^2 := by
    unfold vlen
    exact Real.sq_sqrt hsum_pos.le
  have hnn : dot n n = 1 := by
    rw [hndef]
    unfold dot
    rw [Prod.smul_fst, Prod.smul_snd, smul_eq_mul, smul_eq_mul]
    have hrw : (vlen (pb - pa))⁻¹ * (pb - pa).1 * ((vlen (pb - pa))⁻¹ * (pb - pa).1)
        + (vlen (pb - pa))⁻¹ * (pb - pa).2 * ((vlen (pb - pa))⁻¹ * (pb - pa).2)
        = ((pb - pa).1^2 + (pb - pa).2^2) / (vlen (pb - pa))^2 := by
      ring
    rw [hrw, hsq]
    exact div_self hsum_pos.ne'
  have hmain : collision_system_pair pa pb va vb
      = if dot (vb - va) n > 0 then (some va, some vb)
        else (some (va + ((1/MASS) * DAMPING_FACTOR)
                • ((-(-(1 + E) * dot (vb - va) n * MASS)) • n)),
              some (vb + ((1/MASS) * DAMPING_FACTOR)
                • ((-(1 + E) * dot (vb - va) n * MASS) • n))) := by
    unfold collision_system_pair
    rw [if_pos hdist, hnorm]
  clear hndef
  clear_value n
  refine ⟨n, hnorm, hnn, ?_, ?_⟩
  · intro hsep
    rcases hsep.lt_or_eq with hgt | heq
    · rw [hmain, if_pos hgt]
    · rw [hmain, if_neg (by rw [← heq]; exact lt_irrefl 0), ← heq]
      simp
  · intro hneg
    refine ⟨((1/MASS) * DAMPING_FACTOR)
        • ((-(1 + E) * dot (vb - va) n * MASS) • n), ?_, rfl, ?_⟩
    · rw [hmain, if_neg (by linarith)]
      have harr : va + ((1/MASS) * DAMPING_FACTOR)
            • ((-(-(1 + E) * dot (vb - va) n * MASS)) • n)
          = va - ((1/MASS) * DAMPING_FACTOR)
            • ((-(1 + E) * dot (vb - va) n * MASS) • n) := by
        rw [neg_smul, smul_neg, ← sub_eq_add_neg]
      rw [harr]
    · have hexp : (vb + ((1/MASS) * DAMPING_FACTOR)
            • ((-(1 + E) * dot (vb - va) n * MASS) • n))
          - (va - ((1/MASS) * DAMPING_FACTOR)
            • ((-(1 + E) * dot (vb - va) n * MASS) • n))
          = (vb - va)
            + ((((1/MASS) * DAMPING_FACTOR) * (-(1 + E) * dot (vb - va) n * MASS)) • n
              + (((1/MASS) * DAMPING_FACTOR) * (-(1 + E) * dot (vb - va) n * MASS)) • n) := by
        rw [smul_smul]
        abel
      rw [hexp, dot_add_left, dot_add_left, dot_smul_left, hnn]
      norm_num [MASS, DAMPING_FACTOR, E]
      nlinarith [hneg]

/-- Witness for C5: particles at `(0,0)` and `(1,0)` (distance 1 < 2). -/
theorem claim_C5_pair_impulse_inst :
    vdist ((0:ℝ), (0:ℝ)) ((1:ℝ), (0:ℝ)) < 2 * RADIUS ∧
    0 < vdist ((0:ℝ), (0:ℝ)) ((1:ℝ), (0:ℝ)) ∧
    (∃ n : V, vnormalize (((1:ℝ), (0:ℝ)) - ((0:ℝ), (0:ℝ))) = some n ∧ dot n n = 1 ∧
      (0 ≤ dot (((-1:ℝ), (0:ℝ)) - ((1:ℝ), (0:ℝ))) n →
        collision_system_pair ((0:ℝ), (0:ℝ)) ((1:ℝ), (0:ℝ)) ((1:ℝ), (0:ℝ)) ((-1:ℝ), (0:ℝ))
          = (some ((1:ℝ), (0:ℝ)), some ((-1:ℝ), (0:ℝ)))) ∧
      (dot (((-1:ℝ), (0:ℝ)) - ((1:ℝ), (0:ℝ))) n < 0 →
        ∃ dv : V,
          collision_system_pair ((0:ℝ), (0:ℝ)) ((1:ℝ), (0:ℝ)) ((1:ℝ), (0:ℝ)) ((-1:ℝ), (0:ℝ))
            = (some (((1:ℝ), (0:ℝ)) - dv), some (((-1:ℝ), (0:ℝ)) + dv)) ∧
          dv = ((1/MASS) * DAMPING_FACTOR)
              • ((-(1 + E) * dot (((-1:ℝ), (0:ℝ)) - ((1:ℝ), (0:ℝ))) n * MASS) • n) ∧
          0 ≤ dot ((((-1:ℝ), (0:ℝ)) + dv) - (((1:ℝ), (0:ℝ)) - dv)) n)) := by
  have hd1 : vdist ((0:ℝ), (0:ℝ)) ((1:ℝ), (0:ℝ)) = 1 := by
    show Real.sqrt (((1:ℝ) - 0)^2 + ((0:ℝ) - 0)^2) = 1
    rw [show ((1:ℝ) - 0)^2 + ((0:ℝ) - 0)^2 = 1 by norm_num, Real.sqrt_one]
  have h1 : vdist ((0:ℝ), (0:ℝ)) ((1:ℝ), (0:ℝ)) < 2 * RADIUS := by
    rw [hd1]
    norm_num [RADIUS]
  have h2 : 0 < vdist ((0:ℝ), (0:ℝ)) ((1:ℝ), (0:ℝ)) := by
    rw [hd1]
    norm_num
  exact ⟨h1, h2, claim_C5_pair_impulse ((0:ℝ), (0:ℝ)) ((1:ℝ), (0:ℝ))
    ((1:ℝ), (0:ℝ)) ((-1:ℝ), (0:ℝ)) h1 h2⟩

/-- Counterexample to C5 as stated: a coincident pair (distance 0 < 2·radius)
with zero relative velocity.  Per the claim the projection is non-negative,
so the velocities should be unchanged; the code instead normalizes the zero
separation vector and the NaN impulse makes both velocities non-finite. -/
theorem claim_C5_cex :
    vdist ((0:ℝ), (0:ℝ)) ((0:ℝ), (0:ℝ)) < 2 * RADIUS ∧
    collision_system_pair ((0:ℝ), (0:ℝ)) ((0:ℝ), (0:ℝ)) ((0:ℝ), (0:ℝ)) ((0:ℝ), (0:ℝ))
      = (none, none) ∧
    ((none : Option V), (none : Option V))
      ≠ (some ((0:ℝ), (0:ℝ)), some ((0:ℝ), (0:ℝ))) := by
  have hcond : vdist ((0:ℝ), (0:ℝ)) ((0:ℝ), (0:ℝ)) < 2 * RADIUS := by
    rw [vdist_self]
    norm_num [RADIUS]
  refine ⟨hcond, ?_, by simp⟩
  unfold collision_system_pair
  rw [if_pos hcond, show ((0:ℝ), (0:ℝ)) - ((0:ℝ), (0:ℝ)) = (0:V) by simp,
    show vnormalize (0:V) = none by unfold vnormalize; simp]

/-- Claim C8 (code bug): a coincident pair is skipped by
`calculate_pressure_force` (distance `0 ≤ f32::EPSILON`, zero contribution) —
but `collision_system` has no such guard: `0 < 2 * RADIUS` passes, the zero
separation vector is normalized, and the resulting NaN impulse is applied,
leaving both velocities non-finite instead of skipping the pair. -/
theorem claim_C8_zero_distance_bug :
    pairPressureForce ((2:ℝ), (3:ℝ)) ((2:ℝ), (3:ℝ)) 1 = 0 ∧
    vdist ((2:ℝ), (3:ℝ)) ((2:ℝ), (3:ℝ)) < 2 * RADIUS ∧
    collision_system_pair ((2:ℝ), (3:ℝ)) ((2:ℝ), (3:ℝ)) ((1:ℝ), (0:ℝ)) ((-1:ℝ), (0:ℝ))
      = (none, none) := by
  have hcond : vdist ((2:ℝ), (3:ℝ)) ((2:ℝ), (3:ℝ)) < 2 * RADIUS := by
    rw [vdist_self]
    norm_num [RADIUS]
  refine ⟨?_, hcond, ?_⟩
  · unfold pairPressureForce
    rw [vdist_self, if_pos (Or.inl (by norm_num [f32Epsilon]))]
  · unfold collision_system_pair
    rw [if_pos hcond, show ((2:ℝ), (3:ℝ)) - ((2:ℝ), (3:ℝ)) = (0:V) by simp,
      show vnormalize (0:V) = none by unfold vnormalize; simp]
